import Mathlib

/-!
Verification of `paasta_tools/docker_wrapper.py`.

The wrapper rewrites a docker argument vector: it may insert NUMA pinning
flags (`--cpuset-cpus`/`--cpuset-mems`) after the `run` token and a
`--hostname=` flag derived from the host FQDN and the mesos task id.

External state (the environment map produced by `parse_env_args`, the pid
from `os.getpid()`, the per-zone core lists read from `/proc/cpuinfo`, the
NUMA-capability probe of `/proc/1/numa_maps`, the host FQDN from
`socket.getfqdn()`, and the persisted placement ledger) is passed as
explicit parameters.  CPU quantities are Python floats used only for
addition and comparison; they are modelled as rationals.  Python
exceptions that escape a function are modelled with `Except`.
-/

namespace DockerWrapper

/-- Characters allowed in a hostname: the class `[a-zA-Z0-9-]` of the
regular expression on line 76 of the source. -/
def isAllowed (c : Char) : Bool :=
  (decide ('a' ≤ c) && decide (c ≤ 'z')) ||
  (decide ('A' ≤ c) && decide (c ≤ 'Z')) ||
  (decide ('0' ≤ c) && decide (c ≤ '9')) ||
  (c == '-')

/-- One pass of `re.sub('[^a-zA-Z0-9-]+', '-', s)`: every maximal run of
disallowed characters becomes a single dash.  The boolean flag records
whether the previous character was part of a disallowed run. -/
def squashAux : Bool → List Char → List Char
  | _, [] => []
  | prevBad, c :: cs =>
    if isAllowed c then c :: squashAux false cs
    else if prevBad then squashAux prevBad cs
    else '-' :: squashAux true cs

/-- `MAX_HOSTNAME_LENGTH` (line 28 of the source). -/
def MAX_HOSTNAME_LENGTH : Nat := 63

/-- Line 76 of the source: replace runs of disallowed characters by a
dash, then truncate to 63 characters. -/
def sanitize (l : List Char) : List Char :=
  (squashAux false l).take MAX_HOSTNAME_LENGTH

/-- `sanitize` lifted to `String`. -/
def sanitizeStr (s : String) : String := ⟨sanitize s.data⟩

/-- `fqdn.partition('.')[0]`: the part before the first dot (the whole
string when there is no dot). -/
def firstLabel (l : List Char) : List Char := l.takeWhile (fun c => !(c == '.'))

/-- `mesos_task_id.rpartition('.')[2]`: the part after the last dot (the
whole string when there is no dot). -/
def lastSegment (l : List Char) : List Char :=
  (l.reverse.takeWhile (fun c => !(c == '.'))).reverse

/-- `generate_hostname` (lines 68-77 of the source). -/
def generate_hostname (fqdn mesosTaskId : String) : String :=
  ⟨sanitize (firstLabel fqdn.data ++ '-' :: lastSegment mesosTaskId.data)⟩

/-- Boolean list-prefix test, `str.startswith`. -/
def isPrefixL : List Char → List Char → Bool
  | [], _ => true
  | _ :: _, [] => false
  | p :: ps, c :: cs => (p == c) && isPrefixL ps cs

/-- The per-argument test of `already_has_hostname` (lines 54-65): the
argument is exactly `-h`, or starts with `--hostname`, or is a short-option
cluster (starts with `-` but not `--`) containing `h` before any `=`. -/
def argHasHostname (arg : List Char) : Bool :=
  (arg == ['-', 'h']) ||
  isPrefixL ['-', '-', 'h', 'o', 's', 't', 'n', 'a', 'm', 'e'] arg ||
  (match arg with
   | c0 :: c1 :: _ =>
     (c0 == '-') && !(c1 == '-') && (arg.takeWhile (fun c => !(c == '='))).contains 'h'
   | _ => false)

/-- `already_has_hostname` (lines 54-65 of the source). -/
def already_has_hostname (args : List String) : Bool :=
  args.any (fun a => argHasHostname a.data)

/-- `add_argument` (lines 80-89 of the source): insert `argument`
immediately after the first `run` token; when no `run` token exists the
`list.index` call raises `ValueError`, which is caught, leaving the vector
unchanged. -/
def add_argument : List String → String → List String
  | [], _ => []
  | a :: rest, x => if a = "run" then a :: x :: rest else a :: add_argument rest x

/-! ## Placement ledger and bin packing -/

/-- One zone's dictionary of commitments, `{pid: committed_cpu}`, in
insertion order with unique keys (Python dict). -/
abbrev Bin := List (Nat × ℚ)

/-- Python `dict.get k` on a bin (keys are unique, so first match). -/
def dictGet (k : Nat) : Bin → Option ℚ
  | [] => none
  | (k2, v) :: rest => if k = k2 then some v else dictGet k rest

/-- Python `bin[k] = v`: overwrite in place when the key exists, append
otherwise. -/
def dictInsert (b : Bin) (k : Nat) (v : ℚ) : Bin :=
  if (dictGet k b).isSome then b.map (fun p => if p.1 = k then (k, v) else p)
  else b ++ [(k, v)]

/-- `sum(bin.values())` (line 133 of the source). -/
def binSum (b : Bin) : ℚ := (b.map Prod.snd).sum

/-- Python exceptions that escape the placement code. -/
inductive PyExc
  | typeError
  | attributeError
  | valueError
deriving DecidableEq, Repr

/-- The `for bin in bins` loop of `binpack` (lines 132-138): skip a bin
when its committed sum plus the incoming weight exceeds the capacity,
otherwise store the incoming pid/weight in that bin and return all bins.
`none` means the loop fell through. -/
def binpackLoop (k : Nat) (w cap : ℚ) : List Bin → Option (List Bin)
  | [] => none
  | b :: rest =>
    if binSum b + w > cap then (binpackLoop k w cap rest).map (fun nb => b :: nb)
    else some (dictInsert b k w :: rest)

/-- `binpack` (lines 126-143 of the source).  When no bin fits, the code
reaches its fallback lines, both of which raise: with `len(bins) <
max_bins` it evaluates `max_bins.append(...)` — an attribute lookup on the
int `max_bins`, hence `AttributeError` — and otherwise the
`raise ValueError(... % (incoming_key[incoming_weight]))` line first
subscripts the int `incoming_key`, raising `TypeError` before the
`ValueError` is ever constructed. -/
def binpack (bins : List Bin) (k : Nat) (w cap : ℚ) (maxBins : Nat) :
    Except PyExc (List Bin) :=
  match binpackLoop k w cap bins with
  | some nb => .ok nb
  | none =>
    if bins.length < maxBins then .error .attributeError
    else .error .typeError

/-- `prune_dead_pids` (lines 108-110 of the source): the body is
`return bins` under a `# TODO: check pids` comment. -/
def prune_dead_pids (bins : List Bin) : List Bin := bins

/-- `get_existing_bins` (lines 113-123 of the source): the persisted
ledger is stubbed out (`# TODO: Serialize`) as a hard-coded value passed
through `prune_dead_pids`. -/
def get_existing_bins : List Bin :=
  prune_dead_pids [[(101, 6), (102, 2)], []]

/-- `bin.get(pid, False)` used as a truth value (line 174): present with a
nonzero weight. -/
def binGetTruthy (b : Bin) (pid : Nat) : Bool :=
  match dictGet pid b with
  | some v => decide (v ≠ 0)
  | none => false

/-- Python `dict ==` is order-insensitive: two bins are equal when they
hold the same key/value pairs. -/
def binEquiv (a b : Bin) : Bool :=
  a.all (fun p => decide (dictGet p.1 b = some p.2)) &&
  b.all (fun p => decide (dictGet p.1 a = some p.2))

/-- The `for bin in new_bins` search of lines 173-176: first bin whose
`get(pid, False)` is truthy. -/
def findTruthy (pid : Nat) : List Bin → Option Bin
  | [] => none
  | b :: rest => if binGetTruthy b pid then some b else findTruthy pid rest

/-- `new_bins.index(bin)` (line 176): index of the first bin equal (as a
Python dict) to `b`. -/
def indexOfBin (b : Bin) : List Bin → Nat
  | [] => 0
  | x :: rest => if binEquiv x b then 0 else indexOfBin b rest + 1

/-- Body of `pick_best_numa_zone` (lines 155-179) after its external
inputs (ledger, pid, capacity) are in hand: run `binpack`, catching only
`ValueError` as `None`; on success scan the bins for the pid's entry and
return its index, or `None` when no bin reports the pid as present. -/
def pick_core (bins : List Bin) (pid : Nat) (w cap : ℚ) (maxBins : Nat) :
    Except PyExc (Option Nat) :=
  match binpack bins pid w cap maxBins with
  | .error .valueError => .ok none
  | .error e => .error e
  | .ok newBins =>
    match findTruthy pid newBins with
    | some b => .ok (some (indexOfBin b newBins))
    | none => .ok none

/-- `pick_best_numa_zone` (lines 155-179): `numa_zones = 2`, capacity is
`len(get_core_list(0))`; `coreList` stands for `get_core_list` (read from
`/proc/cpuinfo`) and `bins` for the ledger returned by
`get_existing_bins`. -/
def pick_best_numa_zone (coreList : Nat → List Nat) (bins : List Bin)
    (pid : Nat) (w : ℚ) : Except PyExc (Option Nat) :=
  pick_core bins pid w ((coreList 0).length : ℚ) 2

/-- `get_numa_args` (lines 182-188 of the source): empty string when no
zone was picked, otherwise both cpuset flags formatted into one string. -/
def get_numa_args (coreList : Nat → List Nat) (bins : List Bin)
    (pid : Nat) (w : ℚ) : Except PyExc String :=
  match pick_best_numa_zone coreList bins pid w with
  | .error e => .error e
  | .ok none => .ok ""
  | .ok (some z) =>
    .ok ("--cpuset-cpus=" ++ String.intercalate "," ((coreList z).map (fun c => toString c))
      ++ " --cpuset-mems=" ++ toString z)

/-! ## main -/

/-- Lookup in the parsed environment map (unique keys). -/
def lookupEnv (k : String) : List (String × String) → Option String
  | [] => none
  | (k2, v) :: rest => if k = k2 then some v else lookupEnv k rest

/-- Line 197: `env_args.get('MESOS_TASK_ID') or env_args.get('mesos_task_id')`
with Python truthiness (the empty string is falsy). -/
def mesosTaskIdOf (env : List (String × String)) : Option String :=
  match lookupEnv "MESOS_TASK_ID" env with
  | some v => if v = "" then lookupEnv "mesos_task_id" env else some v
  | none => lookupEnv "mesos_task_id" env

/-- Lines 200-201 of the source: the value derived from the
`PIN_TO_NUMA_NODE` environment variable is computed and then immediately
overwritten by the unconditional reassignment `pin_to_numa = True`. -/
def pin_to_numa (env : List (String × String)) : Bool :=
  let _fromEnv : Bool :=
    match lookupEnv "PIN_TO_NUMA_NODE" env with
    | some v => decide (v ≠ "")
    | none => false
  true

/-- Lines 210-212 of the source: add the hostname flag when a truthy task
id was found and no hostname flag is present. -/
def hostnameStep (mesosTaskId : Option String) (fqdn : String)
    (argv : List String) : List String :=
  match mesosTaskId with
  | none => argv
  | some tid =>
    if tid ≠ "" ∧ already_has_hostname argv = false then
      add_argument argv ("--hostname=" ++ generate_hostname fqdn tid)
    else argv

/-- `main` (lines 191-214 of the source), as the rewrite of the argument
vector it computes.  `numaEnabled` stands for `is_numa_enabled()`, `w` for
`get_requested_cpu(env_args)`, `fqdn` for `socket.getfqdn()`, `pid` for
`os.getpid()`, and `bins` for the ledger.  An `Except.error` is an
uncaught Python exception aborting `main`; on the normal path `main`
merely prints the final vector and returns — the file contains no `exec`
of the docker binary. -/
def mainRewrite (env : List (String × String)) (numaEnabled : Bool)
    (coreList : Nat → List Nat) (bins : List Bin) (pid : Nat) (w : ℚ)
    (fqdn : String) (argv : List String) : Except PyExc (List String) :=
  let afterNuma : Except PyExc (List String) :=
    if pin_to_numa env then
      if numaEnabled then
        match get_numa_args coreList bins pid w with
        | .error e => .error e
        | .ok s => .ok (add_argument argv s)
      else .ok argv
    else .ok argv
  match afterNuma with
  | .error e => .error e
  | .ok argv2 => .ok (hostnameStep (mesosTaskIdOf env) fqdn argv2)

/-! ## Sanitization lemmas -/

/-- Every character emitted by the run-squashing pass is in the allowed
class (the pass only ever emits input characters that are allowed, or a
dash, which is itself allowed). -/
theorem squashAux_allowed (b : Bool) (l : List Char) :
    ∀ c ∈ squashAux b l, isAllowed c = true := by
  induction l generalizing b with
  | nil => intro c hc; cases hc
  | cons a t ih =>
    intro c hc
    by_cases ha : isAllowed a = true
    · rw [squashAux, if_pos ha] at hc
      rcases List.mem_cons.mp hc with h | h
      · exact h ▸ ha
      · exact ih false c h
    · rw [squashAux, if_neg ha] at hc
      cases b with
      | true => exact ih true c hc
      | false =>
        rcases List.mem_cons.mp hc with h | h
        · subst h; decide
        · exact ih true c h

/-- On input made only of allowed characters the squashing pass is the
identity. -/
theorem squashAux_of_allowed (b : Bool) (l : List Char)
    (h : ∀ c ∈ l, isAllowed c = true) : squashAux b l = l := by
  induction l generalizing b with
  | nil => rfl
  | cons a t ih =>
    have ha : isAllowed a = true := h a (List.mem_cons_self a t)
    rw [squashAux, if_pos ha, ih false (fun c hc => h c (List.mem_cons_of_mem a hc))]

/-- C6: `sanitize` (replace each run of characters outside `[A-Za-z0-9-]`
by a single dash, then truncate to 63 characters) is idempotent, its
output never exceeds 63 characters, and its output contains only
characters of `[A-Za-z0-9-]`. -/
theorem sanitize_idempotent_bounded_allowed (s : String) :
    sanitizeStr (sanitizeStr s) = sanitizeStr s ∧
    (sanitizeStr s).length ≤ 63 ∧
    ∀ c ∈ (sanitizeStr s).data, isAllowed c = true := by
  have hall : ∀ c ∈ sanitize s.data, isAllowed c = true := fun c hc =>
    squashAux_allowed false s.data c (List.mem_of_mem_take hc)
  refine ⟨?_, ?_, ?_⟩
  · show (⟨sanitize (sanitize s.data)⟩ : String) = ⟨sanitize s.data⟩
    congr 1
    have h2 : (sanitize s.data).length ≤ MAX_HOSTNAME_LENGTH :=
      List.length_take_le _ _
    calc sanitize (sanitize s.data)
        = (squashAux false (sanitize s.data)).take MAX_HOSTNAME_LENGTH := rfl
      _ = (sanitize s.data).take MAX_HOSTNAME_LENGTH := by
          rw [squashAux_of_allowed false _ hall]
      _ = sanitize s.data := List.take_of_length_le h2
  · show (sanitize s.data).length ≤ 63
    exact List.length_take_le _ _
  · exact hall

/-! ## Argument-vector lemmas -/

/-- `add_argument` never drops an element of its input. -/
theorem mem_add_argument {a : String} {args : List String} (x : String)
    (h : a ∈ args) : a ∈ add_argument args x := by
  induction args with
  | nil => cases h
  | cons b rest ih =>
    rw [add_argument]
    by_cases hb : b = "run"
    · rw [if_pos hb]
      rcases List.mem_cons.mp h with h1 | h1
      · exact h1 ▸ List.mem_cons_self _ _
      · exact List.mem_cons_of_mem _ (List.mem_cons_of_mem _ h1)
    · rw [if_neg hb]
      rcases List.mem_cons.mp h with h1 | h1
      · exact h1 ▸ List.mem_cons_self _ _
      · exact List.mem_cons_of_mem _ (ih h1)

/-- Without a `run` token `add_argument` is the identity. -/
theorem add_argument_of_not_mem (args : List String) (x : String)
    (h : "run" ∉ args) : add_argument args x = args := by
  induction args with
  | nil => rfl
  | cons a rest ih =>
    have ha : ¬ (a = "run") := by
      intro e; subst e; exact h (List.mem_cons_self _ _)
    rw [add_argument, if_neg ha, ih (fun hm => h (List.mem_cons_of_mem a hm))]

/-- `add_argument` inserts right after the first `run` token. -/
theorem add_argument_split (pre post : List String) (x : String)
    (h : "run" ∉ pre) :
    add_argument (pre ++ "run" :: post) x = pre ++ "run" :: x :: post := by
  induction pre with
  | nil => simp [add_argument]
  | cons a t ih =>
    have ha : ¬ (a = "run") := by
      intro e; subst e; exact h (List.mem_cons_self _ _)
    rw [List.cons_append, add_argument, if_neg ha,
      ih (fun hm => h (List.mem_cons_of_mem a hm)), List.cons_append]

/-- Inserting after a present `run` token grows the vector by exactly one
element. -/
theorem add_argument_length_of_mem (args : List String) (x : String)
    (h : "run" ∈ args) : (add_argument args x).length = args.length + 1 := by
  induction args with
  | nil => cases h
  | cons a rest ih =>
    by_cases hb : a = "run"
    · simp [add_argument, hb]
    · have hr : "run" ∈ rest := by
        rcases List.mem_cons.mp h with h1 | h1
        · exact absurd h1.symm hb
        · exact h1
      simp [add_argument, hb, ih hr]

/-- C8: the hostname flag is inserted immediately after the first `run`
token; when no `run` token exists the insertion leaves the vector
unchanged, and in both cases all existing elements and their order are
preserved. -/
theorem add_argument_after_first_run (args : List String) (x : String) :
    ("run" ∉ args → add_argument args x = args) ∧
    ∀ pre post, args = pre ++ "run" :: post → "run" ∉ pre →
      add_argument args x = pre ++ "run" :: x :: post := by
  refine ⟨fun h => add_argument_of_not_mem args x h, ?_⟩
  rintro pre post rfl hpre
  exact add_argument_split pre post x hpre

/-- Witness for C8: concrete insertion after the first `run` token. -/
theorem add_argument_after_first_run_w :
    add_argument ["docker", "run", "nginx"] "--hostname=h1"
      = ["docker", "run", "--hostname=h1", "nginx"] :=
  (add_argument_after_first_run ["docker", "run", "nginx"] "--hostname=h1").2
    ["docker"] ["nginx"] rfl (by decide)

/-- C5: when the vector already carries a hostname flag (exact `-h`, a
`--hostname` prefix, or `h` inside a short-option cluster before any
`=`), the hostname step leaves the vector completely unchanged; moreover
the flag survives any insertion done by `add_argument`, so the later
check cannot be defeated by the pinning insertion. -/
theorem hostname_flag_respected (argv : List String) (tid fqdn : String)
    (h : already_has_hostname argv = true) :
    hostnameStep (some tid) fqdn argv = argv ∧
    ∀ x, already_has_hostname (add_argument argv x) = true := by
  constructor
  · rw [hostnameStep, if_neg]
    rintro ⟨-, h2⟩
    exact Bool.noConfusion (h.symm.trans h2)
  · intro x
    rcases List.any_eq_true.mp h with ⟨a, ha, hpa⟩
    exact List.any_eq_true.mpr ⟨a, mem_add_argument x ha, hpa⟩

/-- Witness for C5 at a concrete vector that already carries `-h`. -/
theorem hostname_flag_respected_w :
    hostnameStep (some "task1") "node.example.com" ["run", "-h", "myhost"]
      = ["run", "-h", "myhost"] :=
  (hostname_flag_respected ["run", "-h", "myhost"] "task1" "node.example.com"
    (by decide)).1

/-! ## Placement lemmas -/

/-- C3: `prune_dead_pids` removes nothing — its body is `return bins`
(`# TODO: check pids`), so entries owned by dead processes are never
reclaimed; in particular the stub ledger with entries for pids 101 and
102 passes through unchanged whether or not those processes exist. -/
theorem prune_dead_pids_removes_nothing :
    prune_dead_pids [[(101, 6), (102, 2)], []] = [[(101, 6), (102, 2)], []] ∧
    ∀ bins, prune_dead_pids bins = bins :=
  ⟨rfl, fun _ => rfl⟩

/-- C1: when no zone has sufficient remaining capacity, `binpack` does
not return an `Exhausted` result: with as many bins as `max_bins` the
`raise ValueError` line itself raises `TypeError` (it subscripts the int
`incoming_key`), and with fewer bins the code attempts to open a new bin
via `max_bins.append`, raising `AttributeError` on the int `max_bins`. -/
theorem binpack_exhaustion_raises :
    binpack [[(101, 6), (102, 2)], [(103, 8)]] 555 3 8 2 = .error .typeError ∧
    binpack [[(101, 6), (102, 2)]] 555 3 8 2 = .error .attributeError :=
  ⟨by with_unfolding_all rfl, by with_unfolding_all rfl⟩

/-- C2: on a ledger where no zone can take the requested CPU, `main`
aborts with the uncaught `TypeError` escaping `binpack` (only
`ValueError` is caught): the launch fails and the hostname flag is never
added, even though a task id was supplied. -/
theorem exhausted_request_crashes_launch :
    mainRewrite [("MESOS_TASK_ID", "mytask.abc")] true
      (fun _ => [0, 1, 2, 3, 4, 5, 6, 7])
      [[(101, 6), (102, 2)], [(103, 8)]] 555 3 "node.example.com"
      ["run", "ubuntu"]
      = .error .typeError := by
  with_unfolding_all rfl

/-- C4: `main` completes normally and merely yields the rewritten vector
— the source contains no exec of the container runtime at all, so on
success the process prints the vector and exits 0 without ever invoking
docker. -/
theorem main_returns_without_exec :
    mainRewrite [("MESOS_TASK_ID", "app.task")] false (fun _ => []) [] 1 0
      "node1.example.com" ["run", "ubuntu"]
      = .ok ["run", "--hostname=node1-task", "ubuntu"] := by
  with_unfolding_all rfl

/-- C7: with an environment that does not set `PIN_TO_NUMA_NODE` at all,
the pinning flags are still inserted, because line 201 unconditionally
reassigns `pin_to_numa = True`. -/
theorem pins_without_env_request :
    mainRewrite [] true (fun _ => [0, 1]) [[], []] 555 1 "node1.example.com"
      ["run", "ubuntu"]
      = .ok ["run", "--cpuset-cpus=0,1 --cpuset-mems=0", "ubuntu"] := by
  with_unfolding_all rfl

/-- C9: whenever a zone is picked, both cpuset flags are emitted as one
single argument-vector element, the two flags joined by a space, and
`add_argument` inserts exactly one element into the vector. -/
theorem numa_flags_single_token (coreList : Nat → List Nat) (bins : List Bin)
    (pid : Nat) (w : ℚ) (z : Nat) (argv : List String)
    (hz : pick_best_numa_zone coreList bins pid w = .ok (some z))
    (hrun : "run" ∈ argv) :
    get_numa_args coreList bins pid w =
      .ok ("--cpuset-cpus="
        ++ String.intercalate "," ((coreList z).map (fun c => toString c))
        ++ " --cpuset-mems=" ++ toString z) ∧
    ∀ s, (add_argument argv s).length = argv.length + 1 := by
  constructor
  · rw [get_numa_args, hz]
  · intro s
    exact add_argument_length_of_mem argv s hrun

/-- Witness for C9: the picked zone 0 with cores 0 and 1 yields the
single combined token. -/
theorem numa_flags_single_token_w :
    get_numa_args (fun _ => [0, 1]) [[], []] 555 1 =
      .ok ("--cpuset-cpus="
        ++ String.intercalate "," (([0, 1] : List Nat).map (fun c => toString c))
        ++ " --cpuset-mems=" ++ toString (0 : Nat)) :=
  (numa_flags_single_token (fun _ => [0, 1]) [[], []] 555 1 0 ["run", "ubuntu"]
    (by with_unfolding_all rfl) (by decide)).1

/-! ## Zero-CPU placement -/

/-- Looking a key up past an association list in which it does not occur. -/
theorem dictGet_append_right (k : Nat) (l1 l2 : Bin)
    (h : dictGet k l1 = none) : dictGet k (l1 ++ l2) = dictGet k l2 := by
  induction l1 with
  | nil => rfl
  | cons p t ih =>
    cases p with
    | mk k2 v =>
      by_cases hk : k = k2
      · rw [dictGet, if_pos hk] at h; cases h
      · rw [List.cons_append, dictGet, if_neg hk]
        rw [dictGet, if_neg hk] at h
        exact ih h

/-- Inserting a fresh key stores exactly the given value. -/
theorem dictGet_dictInsert_fresh (b : Bin) (k : Nat) (v : ℚ)
    (h : dictGet k b = none) : dictGet k (dictInsert b k v) = some v := by
  have hi : dictInsert b k v = b ++ [(k, v)] := by
    rw [dictInsert, h]
    simp
  rw [hi, dictGet_append_right k b [(k, v)] h, dictGet, if_pos rfl]

/-- A bin without the pid is not truthy for it. -/
theorem binGetTruthy_of_none {b : Bin} {pid : Nat}
    (h : dictGet pid b = none) : binGetTruthy b pid = false := by
  rw [binGetTruthy, h]

/-- A bin holding the pid with weight 0 is not truthy for it: the float 0
is falsy in Python, which is exactly the defect. -/
theorem binGetTruthy_of_zero {b : Bin} {pid : Nat}
    (h : dictGet pid b = some 0) : binGetTruthy b pid = false := by
  rw [binGetTruthy, h]
  simp

/-- The search loop finds nothing when no bin is truthy for the pid. -/
theorem findTruthy_none (pid : Nat) (l : List Bin)
    (h : ∀ b ∈ l, binGetTruthy b pid = false) : findTruthy pid l = none := by
  induction l with
  | nil => rfl
  | cons b t ih =>
    have hb := h b (List.mem_cons_self b t)
    rw [findTruthy, hb]
    simp only [Bool.false_eq_true, if_false]
    exact ih (fun c hc => h c (List.mem_cons_of_mem b hc))

/-- A weight-0 request from a pid not yet in the ledger is accepted by
the packing loop (stored with committed weight 0) but leaves every bin
non-truthy for that pid. -/
theorem binpackLoop_zero (pid : Nat) (cap : ℚ) :
    ∀ bins : List Bin, (∀ b ∈ bins, dictGet pid b = none) →
      (∃ b ∈ bins, binSum b ≤ cap) →
      ∃ nb, binpackLoop pid 0 cap bins = some nb ∧
        (∃ b ∈ nb, dictGet pid b = some 0) ∧
        (∀ b ∈ nb, binGetTruthy b pid = false) := by
  intro bins
  induction bins with
  | nil => rintro - ⟨b, hb, -⟩; cases hb
  | cons b t ih =>
    intro hfresh hfit
    by_cases hcap : binSum b + 0 > cap
    · have hbfit : ¬ binSum b ≤ cap := by
        rw [add_zero] at hcap
        exact not_le.mpr hcap
      have hfit2 : ∃ c ∈ t, binSum c ≤ cap := by
        rcases hfit with ⟨c, hc, hcle⟩
        rcases List.mem_cons.mp hc with rfl | hct
        · exact absurd hcle hbfit
        · exact ⟨c, hct, hcle⟩
      rcases ih (fun c hc => hfresh c (List.mem_cons_of_mem b hc)) hfit2 with
        ⟨nb, hnb, ⟨c, hc, hc0⟩, hall⟩
      refine ⟨b :: nb, ?_, ⟨c, List.mem_cons_of_mem b hc, hc0⟩, ?_⟩
      · rw [binpackLoop, if_pos hcap, hnb]
        rfl
      · intro d hd
        rcases List.mem_cons.mp hd with rfl | hdt
        · exact binGetTruthy_of_none (hfresh d (List.mem_cons_self d t))
        · exact hall d hdt
    · have hb : dictGet pid b = none := hfresh b (List.mem_cons_self b t)
      refine ⟨dictInsert b pid 0 :: t, ?_, ?_, ?_⟩
      · rw [binpackLoop, if_neg hcap]
      · exact ⟨dictInsert b pid 0, List.mem_cons_self _ _,
          dictGet_dictInsert_fresh b pid 0 hb⟩
      · intro d hd
        rcases List.mem_cons.mp hd with rfl | hdt
        · exact binGetTruthy_of_zero (dictGet_dictInsert_fresh b pid 0 hb)
        · exact binGetTruthy_of_none (hfresh d (List.mem_cons_of_mem b hdt))

/-- C10: a request of 0 CPU from a pid not yet in the ledger is accepted
by the packing loop (some bin gains the entry `pid ↦ 0`) whenever some
zone has committed load within capacity, yet `pick_best_numa_zone`
returns no zone — `bin.get(pid, False)` treats the stored 0 as absent —
so `get_numa_args` yields the empty string and the invocation proceeds
without pinning. -/
theorem zero_cpu_request_defeats_zone_selection (coreList : Nat → List Nat)
    (bins : List Bin) (pid : Nat)
    (hfresh : ∀ b ∈ bins, dictGet pid b = none)
    (hfit : ∃ b ∈ bins, binSum b ≤ ((coreList 0).length : ℚ)) :
    (∃ nb, binpack bins pid 0 ((coreList 0).length : ℚ) 2 = .ok nb ∧
      ∃ b ∈ nb, dictGet pid b = some 0) ∧
    pick_best_numa_zone coreList bins pid 0 = .ok none ∧
    get_numa_args coreList bins pid 0 = .ok "" := by
  rcases binpackLoop_zero pid ((coreList 0).length : ℚ) bins hfresh hfit with
    ⟨nb, hnb, hex, hall⟩
  have hbp : binpack bins pid 0 ((coreList 0).length : ℚ) 2 = .ok nb := by
    rw [binpack, hnb]
  have hpick : pick_best_numa_zone coreList bins pid 0 = .ok none := by
    rw [pick_best_numa_zone, pick_core, hbp]
    simp [findTruthy_none pid nb hall]
  refine ⟨⟨nb, hbp, hex⟩, hpick, ?_⟩
  rw [get_numa_args, hpick]

/-- Witness for C10: a fresh pid requesting 0 CPU against the stub ledger
shape gets no zone. -/
theorem zero_cpu_request_defeats_zone_selection_w :
    pick_best_numa_zone (fun _ => [0, 1, 2]) [[(101, 6)], []] 555 0
      = .ok none :=
  (zero_cpu_request_defeats_zone_selection (fun _ => [0, 1, 2])
    [[(101, 6)], []] 555 (by decide) (by with_unfolding_all decide)).2.1

end DockerWrapper
